import Mathlib

/-!
Shallow embedding of the preferences-rs crate (src/lib.rs).

The embedded core is the key-to-path resolution function `path_buf_from_name`
and the blanket `Preferences` implementation (`save`, `load`, `save_to`,
`load_from`).  Paths are modelled as lists of `/`-separated components; the
filesystem is an explicit state (files as an association list from resolved
paths to byte contents, directories as a list of resolved paths).  The two
external collaborators — the rustc_serialize JSON codec and std's UTF-8
string/byte conversion — are modelled abstractly: the codec as a structure of
encode/decode functions, the byte conversion as an injective per-character
encoding with invalid byte sequences, matching the contract the crate relies
on (`String::from_utf8` inverts `str::as_bytes` and fails on some inputs).
-/

deriving instance DecidableEq for Except

namespace Prefs

/-- Error kinds, mirroring the std::io::ErrorKind values observable through
this crate (NotFound, Other, InvalidData, AlreadyExists). -/
inductive ErrKind
  | notFound
  | other
  | invalidData
  | alreadyExists
deriving DecidableEq

/-- A std::io::Error as the crate observes it: a kind plus a message. -/
structure IoErr where
  kind : ErrKind
  msg : String
deriving DecidableEq

/-- The crate's `PreferencesError` enum (src/lib.rs lines 326-333).
`Serialize` / `Deserialize` wrap the rustc_serialize json error payloads,
modelled here as plain messages. -/
inductive PreferencesError
  | Serialize (msg : String)
  | Deserialize (msg : String)
  | Io (e : IoErr)
deriving DecidableEq

/-- Does `pat` occur as a contiguous run inside the list?  Helper for
modelling `str::contains` on substrings. -/
def subSeqAt (pat : List Char) : List Char → Bool
  | [] => pat.isEmpty
  | c :: rest => pat.isPrefixOf (c :: rest) || subSeqAt pat rest

/-- `str::contains(pat)`: `pat` occurs as a contiguous substring of `s`. -/
def strContainsSub (s pat : String) : Bool :=
  subSeqAt pat.data s.data

/-- `str::starts_with(pat)`, character-wise. -/
def strStarts (s pat : String) : Bool :=
  pat.data.isPrefixOf s.data

/-- `str::ends_with(pat)`, character-wise. -/
def strEnds (s pat : String) : Bool :=
  pat.data.reverse.isPrefixOf s.data.reverse

/-- The textual traversal blocklist of `path_buf_from_name`
(src/lib.rs line 454): starts with "../", or ends with "/..",
or contains "/../". -/
def badNameCheck (name : String) : Bool :=
  strStarts name "../" || strEnds name "/.." || strContainsSub name "/../"

/-- `Path::is_relative` on Unix: the path has no root, i.e. does not begin
with the separator. -/
def isRelativePath (name : String) : Bool :=
  !(strStarts name "/")

/-- Split a character list on the `/` separator. -/
def splitSlashAux (acc : List Char) : List Char → List (List Char)
  | [] => [acc.reverse]
  | c :: rest =>
    if c == '/' then acc.reverse :: splitSlashAux [] rest
    else splitSlashAux (c :: acc) rest

/-- Split a key string on `/` into its raw components (empty components are
kept, as Rust's `PathBuf::push` keeps the raw text). -/
def splitKey (s : String) : List String :=
  (splitSlashAux [] s.data).map (fun l => ⟨l⟩)

/-- The error built when the home directory is unavailable
(src/lib.rs lines 448-449). -/
def errNotFound : IoErr :=
  ⟨ErrKind.notFound, "Could not find home directory for user data storage"⟩

/-- The invalid-name error of `path_buf_from_name`
(src/lib.rs lines 451-452). -/
def errBadName (name : String) : IoErr :=
  ⟨ErrKind.other, "Invalid preferences name: " ++ name⟩

/-- A filesystem path as a list of raw components. `PathBuf::push` of a
relative name onto a base corresponds to appending the name split on `/`. -/
abbrev RawPath := List String

/-- src/lib.rs lines 446-464, `path_buf_from_name`: reject names matching the
traversal blocklist, fail if the platform base directory is unavailable,
reject non-relative names, else push the name verbatim onto the base
directory.  The base directory (`get_prefs_base_path()`) is passed in as an
`Option RawPath` parameter. -/
def path_buf_from_name (name : String) (basePath : Option RawPath) :
    Except IoErr RawPath :=
  if badNameCheck name then
    Except.error (errBadName name)
  else
    match basePath with
    | none => Except.error errNotFound
    | some bp =>
      if isRelativePath name then
        Except.ok (bp ++ splitKey name)
      else
        Except.error (errBadName name)

/-- Rust `Path::components()` normalisation relevant to pushed paths: empty
components (doubled or trailing separators) and interior `.` components are
dropped; `..` components are kept. -/
def rustComponents (p : RawPath) : RawPath :=
  p.filter (fun c => !(c == "" || c == "."))

/-- Resolve `..` components against an absolute root, stack style: a `..`
pops the previously accumulated component (at the root it is a no-op, as on
a Unix filesystem). -/
def resolveAux : RawPath → RawPath → RawPath
  | stack, [] => stack.reverse
  | stack, c :: rest =>
    if c == ".." then resolveAux stack.tail rest
    else resolveAux (c :: stack) rest

/-- Full filesystem resolution of a raw path: drop empty and `.` components,
then resolve `..` components. The result is the canonical identity of the
path on disk. -/
def resolvePath (p : RawPath) : RawPath :=
  resolveAux [] (rustComponents p)

/-- `Path::parent()` as used by `save`: the path minus its last component. -/
def parentPath (p : RawPath) : RawPath :=
  (rustComponents p).dropLast

/-- The filesystem state: files keyed by resolved path with byte contents,
and the set of existing directories, also keyed by resolved path. -/
structure FS where
  files : List (RawPath × List Nat)
  dirs : List RawPath
deriving DecidableEq

/-- `std::fs::create_dir_all` on a path: fails if a file sits at a proper
prefix of the target (NotADirectory, surfaced with kind Other) or at the
target itself (AlreadyExists); otherwise creates every prefix directory. -/
def createDirAll (fs : FS) (p : RawPath) : Except IoErr FS :=
  if (resolvePath p).inits.dropLast.any (fun q => (fs.files.lookup q).isSome) then
    Except.error ⟨ErrKind.other, "Not a directory"⟩
  else if (fs.files.lookup (resolvePath p)).isSome then
    Except.error ⟨ErrKind.alreadyExists, "File exists"⟩
  else
    Except.ok { fs with dirs := fs.dirs ++ (resolvePath p).inits }

/-- `File::create`: fails if the target is a directory, if a file occupies
a proper prefix of the path — the path walk hits a non-directory, ENOTDIR,
surfaced with kind Other (the prefixes of `dropLast` are exactly the proper
prefixes of the target) — or if the parent directory does not exist
(NotFound); otherwise creates or truncates the file to empty contents. -/
def fileCreate (fs : FS) (p : RawPath) : Except IoErr FS :=
  if fs.dirs.contains (resolvePath p) then
    Except.error ⟨ErrKind.other, "Is a directory"⟩
  else if ((resolvePath p).dropLast.inits).any
      (fun q => (fs.files.lookup q).isSome) then
    Except.error ⟨ErrKind.other, "Not a directory"⟩
  else if !(fs.dirs.contains (resolvePath p).dropLast) then
    Except.error ⟨ErrKind.notFound, "No such file or directory"⟩
  else
    Except.ok { fs with
      files := (resolvePath p, []) :: fs.files.filter (fun kv => !(kv.1 == resolvePath p)) }

/-- Writing the full byte contents to an existing file handle
(`write_all` then `flush` on an in-memory model cannot fail). -/
def fileWrite (fs : FS) (p : RawPath) (bytes : List Nat) : FS :=
  { fs with
    files := (resolvePath p, bytes) :: fs.files.filter (fun kv => !(kv.1 == resolvePath p)) }

/-- `File::open` followed by `read_to_end`: if a file occupies a proper
prefix of the path the path walk fails with ENOTDIR (kind Other); otherwise
the stored bytes are returned, NotFound when nothing exists at the path,
and EISDIR (kind Other) when the path is a directory (on Unix the open
succeeds and the read fails). -/
def fileRead (fs : FS) (p : RawPath) : Except IoErr (List Nat) :=
  if ((resolvePath p).dropLast.inits).any
      (fun q => (fs.files.lookup q).isSome) then
    Except.error ⟨ErrKind.other, "Not a directory"⟩
  else
    match fs.files.lookup (resolvePath p) with
    | some b => Except.ok b
    | none =>
      if fs.dirs.contains (resolvePath p) then Except.error ⟨ErrKind.other, "Is a directory"⟩
      else Except.error ⟨ErrKind.notFound, "No such file or directory"⟩

/-- Is this byte (codepoint) a valid Unicode scalar value?  Mirrors
`Nat.isValidChar`. -/
def validByteB (n : Nat) : Bool :=
  n < 55296 || (57344 ≤ n && n < 1114112)

/-- Abstract model of `str::as_bytes` for the strings the crate writes:
one number per character. -/
def strToBytes (s : String) : List Nat :=
  s.data.map Char.toNat

/-- Abstract model of `String::from_utf8`: succeeds exactly when every byte
is a valid scalar value, in which case it inverts `strToBytes`; otherwise it
fails (the FromUtf8Error case). -/
def bytesToStr (bs : List Nat) : Except Unit String :=
  if bs.all validByteB then Except.ok ⟨bs.map Char.ofNat⟩ else Except.error ()

/-- The Io error that `From<FromUtf8Error> for PreferencesError` produces
(src/lib.rs lines 347-354). -/
def utf8Err : IoErr :=
  ⟨ErrKind.invalidData, "Preferences file contained invalid UTF-8"⟩

/-- Abstract model of the rustc_serialize JSON codec for a value type `T`:
`json::encode` may fail with an EncoderError, `json::decode` with a
DecoderError, both modelled as messages. -/
structure Codec (T : Type) where
  encode : T → Except String String
  decode : String → Except String T

/-- src/lib.rs lines 417-424, `save_to`: encode the value, write the encoded
bytes to the writer (modelled as returning the bytes written). -/
def save_to {T : Type} (c : Codec T) (v : T) : Except PreferencesError (List Nat) :=
  match c.encode v with
  | Except.error e => Except.error (PreferencesError.Serialize e)
  | Except.ok encoded => Except.ok (strToBytes encoded)

/-- src/lib.rs lines 425-434, `load_from`: read all bytes, validate UTF-8
(failure becomes the Io InvalidData error), JSON-decode (failure becomes
Deserialize), and only then overwrite `self` with the decoded value. -/
def load_from {T : Type} (c : Codec T) (self : T) (bytes : List Nat) :
    T × Except PreferencesError Unit :=
  match bytesToStr bytes with
  | Except.error _ => (self, Except.error (PreferencesError.Io utf8Err))
  | Except.ok encoded =>
    match c.decode encoded with
    | Except.error e => (self, Except.error (PreferencesError.Deserialize e))
    | Except.ok newSelf => (newSelf, Except.ok ())

/-- The directory-creation step of `save`: the source line is
`path.parent().map(create_dir_all);` — the inner `Result` is dropped, so on
failure the filesystem is simply left as it was and no error escapes. -/
def dirsStep (fs : FS) (path : RawPath) : FS :=
  match createDirAll fs (parentPath path) with
  | Except.ok fsNew => fsNew
  | Except.error _ => fs

/-- The part of `save` after path resolution: the discarded directory
creation, then `File::create`, then `save_to` into the file. -/
def saveAtPath {T : Type} (c : Codec T) (v : T) (path : RawPath) (fs : FS) :
    Except PreferencesError Unit × FS :=
  match fileCreate (dirsStep fs path) path with
  | Except.error e => (Except.error (PreferencesError.Io e), dirsStep fs path)
  | Except.ok fs2 =>
    match save_to c v with
    | Except.error e => (Except.error e, fs2)
    | Except.ok bytes => (Except.ok (), fileWrite fs2 path bytes)

/-- src/lib.rs lines 402-409, `save`: resolve the path, run
`create_dir_all` on the parent with its result discarded, then
`File::create` and `save_to` into the file. -/
def save {T : Type} (c : Codec T) (v : T) (name : String)
    (basePath : Option RawPath) (fs : FS) :
    Except PreferencesError Unit × FS :=
  match path_buf_from_name name basePath with
  | Except.error e => (Except.error (PreferencesError.Io e), fs)
  | Except.ok path => saveAtPath c v path fs

/-- The part of `load` after path resolution: open and read the file, then
delegate to `load_from`.  Returns the (possibly overwritten) object, the
result, and the (never modified) filesystem. -/
def loadAtPath {T : Type} (c : Codec T) (self : T) (path : RawPath) (fs : FS) :
    T × Except PreferencesError Unit × FS :=
  match fileRead fs path with
  | Except.error e => (self, Except.error (PreferencesError.Io e), fs)
  | Except.ok bytes =>
    ((load_from c self bytes).1, (load_from c self bytes).2, fs)

/-- src/lib.rs lines 410-416, `load`: resolve the path, open and read the
file, and delegate to `load_from`. -/
def load {T : Type} (c : Codec T) (self : T) (name : String)
    (basePath : Option RawPath) (fs : FS) :
    T × Except PreferencesError Unit × FS :=
  match path_buf_from_name name basePath with
  | Except.error e => (self, Except.error (PreferencesError.Io e), fs)
  | Except.ok path => loadAtPath c self path fs

/-- A concrete base directory (the Unix `$HOME/.local/share` default),
used by concrete test theorems. -/
def exBase : RawPath := ["home", "user", ".local", "share"]

/-- A concrete filesystem in which the base directory (and its ancestors)
exist and nothing else does. -/
def exFS : FS :=
  ⟨[], [[], ["home"], ["home", "user"], ["home", "user", ".local"],
    ["home", "user", ".local", "share"]]⟩

/-- The identity codec on strings: a trivially lawful instance of the codec
collaborator, used to instantiate theorems at concrete inputs. -/
def stringCodec : Codec String :=
  ⟨fun s => Except.ok s, fun s => Except.ok s⟩

/-- A codec whose decode always fails, modelling stored bytes that do not
parse as the expected JSON document. -/
def failCodec : Codec String :=
  ⟨fun s => Except.ok s, fun _ => Except.error "EOF while parsing"⟩

/-- Is the result a Deserialize (JSON decode) failure? -/
def isDeserializeFailure : Except PreferencesError Unit → Bool
  | Except.error (PreferencesError.Deserialize _) => true
  | _ => false

/-- A filesystem where the base directory exists and a FILE occupies
`exBase/deep`, so directory creation below it must fail. -/
def fsBlock : FS :=
  ⟨[(exBase ++ ["deep"], [])],
   [[], ["home"], ["home", "user"], ["home", "user", ".local"],
    ["home", "user", ".local", "share"]]⟩

/-- A filesystem holding, under the key path `app/options`, stored bytes
that are not valid UTF-8 (a lone surrogate codepoint). -/
def fsBad : FS :=
  ⟨[(exBase ++ ["app", "options"], [55296])],
   [[], ["home"], ["home", "user"], ["home", "user", ".local"],
    ["home", "user", ".local", "share"]]⟩

/-- The rejection condition of Policy A as the specification words it: the
key starts with "../", ends with "/..", contains "/../", or, interpreted as
a path, is not relative. -/
def specInvalidKey (name : String) : Bool :=
  strStarts name "../" || strEnds name "/.." || strContainsSub name "/../"
    || !(isRelativePath name)

theorem specInvalidKey_eq (name : String) :
    specInvalidKey name = (badNameCheck name || !(isRelativePath name)) := by
  simp [specInvalidKey, badNameCheck, Bool.or_assoc]

theorem save_pbfn_ok {T : Type} (c : Codec T) (v : T) (name : String)
    (basePath : Option RawPath) (fs : FS) (path : RawPath)
    (hp : path_buf_from_name name basePath = Except.ok path) :
    save c v name basePath fs = saveAtPath c v path fs := by
  unfold save
  rw [hp]

theorem save_pbfn_err {T : Type} (c : Codec T) (v : T) (name : String)
    (basePath : Option RawPath) (fs : FS) (e : IoErr)
    (hp : path_buf_from_name name basePath = Except.error e) :
    save c v name basePath fs = (Except.error (PreferencesError.Io e), fs) := by
  unfold save
  rw [hp]

theorem load_pbfn_ok {T : Type} (c : Codec T) (self : T) (name : String)
    (basePath : Option RawPath) (fs : FS) (path : RawPath)
    (hp : path_buf_from_name name basePath = Except.ok path) :
    load c self name basePath fs = loadAtPath c self path fs := by
  unfold load
  rw [hp]

theorem load_pbfn_err {T : Type} (c : Codec T) (self : T) (name : String)
    (basePath : Option RawPath) (fs : FS) (e : IoErr)
    (hp : path_buf_from_name name basePath = Except.error e) :
    load c self name basePath fs
      = (self, Except.error (PreferencesError.Io e), fs) := by
  unfold load
  rw [hp]

theorem pbfn_error_of_invalid (name : String) (bp : RawPath)
    (h : specInvalidKey name = true) :
    path_buf_from_name name (some bp) = Except.error (errBadName name) := by
  rw [specInvalidKey_eq] at h
  unfold path_buf_from_name
  rcases Bool.or_eq_true_iff.mp h with hb | hr
  · simp [hb]
  · by_cases hbn : badNameCheck name = true
    · simp [hbn]
    · simp at hr
      simp [hbn, hr]

theorem pbfn_ok_of_valid (name : String) (bp : RawPath)
    (h : specInvalidKey name = false) :
    path_buf_from_name name (some bp) = Except.ok (bp ++ splitKey name) := by
  rw [specInvalidKey_eq] at h
  simp only [Bool.or_eq_false_iff] at h
  have hr : isRelativePath name = true := by
    have := h.2
    simp at this
    exact this
  unfold path_buf_from_name
  simp [h.1, hr]

theorem fileCreate_error_shape (fs : FS) (p : RawPath) (e : IoErr)
    (h : fileCreate fs p = Except.error e) :
    e = ⟨ErrKind.other, "Is a directory"⟩ ∨
    e = ⟨ErrKind.other, "Not a directory"⟩ ∨
    e = ⟨ErrKind.notFound, "No such file or directory"⟩ := by
  unfold fileCreate at h
  split at h
  · simp at h; simp [h]
  · split at h
    · simp at h; simp [h]
    · split at h
      · simp at h; simp [h]
      · simp at h

theorem fileRead_error_shape (fs : FS) (p : RawPath) (e : IoErr)
    (h : fileRead fs p = Except.error e) :
    e = ⟨ErrKind.other, "Not a directory"⟩ ∨
    e = ⟨ErrKind.other, "Is a directory"⟩ ∨
    e = ⟨ErrKind.notFound, "No such file or directory"⟩ := by
  unfold fileRead at h
  split at h
  · simp at h; simp [h]
  · split at h
    · simp at h
    · split at h
      · simp at h; simp [h]
      · simp at h; simp [h]

theorem save_to_error_shape {T : Type} (c : Codec T) (v : T)
    (e : PreferencesError) (h : save_to c v = Except.error e) :
    ∃ m, e = PreferencesError.Serialize m := by
  unfold save_to at h
  split at h
  · simp at h; exact ⟨_, h.symm⟩
  · simp at h

theorem load_from_error_shape {T : Type} (c : Codec T) (self : T)
    (bytes : List Nat) (e : PreferencesError)
    (h : (load_from c self bytes).2 = Except.error e) :
    e = PreferencesError.Io utf8Err ∨ ∃ m, e = PreferencesError.Deserialize m := by
  unfold load_from at h
  split at h
  · simp at h; simp [h]
  · split at h
    · simp at h; exact Or.inr ⟨_, h.symm⟩
    · simp at h

theorem errBadName_msg_length (name : String) :
    (errBadName name).msg.length = 26 + name.length := by
  show ("Invalid preferences name: " ++ name).length = 26 + name.length
  rw [String.length_append]
  rfl

theorem errBadName_ne_short (name m : String) (k : ErrKind)
    (h : m.length < 26) : errBadName name ≠ ⟨k, m⟩ := by
  intro he
  have : (errBadName name).msg = m := by rw [he]
  have hl := errBadName_msg_length name
  rw [this] at hl
  omega

theorem validByteB_toNat (c : Char) : validByteB c.toNat = true := by
  have h : Nat.isValidChar c.toNat := c.valid
  simp only [validByteB, Bool.or_eq_true, decide_eq_true_eq, Bool.and_eq_true]
  rcases h with h | ⟨h1, h2⟩
  · left; omega
  · right; omega

theorem bytesToStr_strToBytes (s : String) :
    bytesToStr (strToBytes s) = Except.ok s := by
  have hall : (strToBytes s).all validByteB = true := by
    simp only [strToBytes, List.all_eq_true, List.mem_map]
    rintro b ⟨c, _, rfl⟩
    exact validByteB_toNat c
  have hdata : ((strToBytes s).map Char.ofNat) = s.data := by
    rw [strToBytes, List.map_map]
    have hfun : (Char.ofNat ∘ Char.toNat) = id := by
      funext c
      exact Char.ofNat_toNat c
    rw [hfun, List.map_id]
  unfold bytesToStr
  rw [if_pos hall, hdata]

theorem lookup_fileWrite (fs : FS) (p : RawPath) (bytes : List Nat) :
    (fileWrite fs p bytes).files.lookup (resolvePath p) = some bytes := by
  simp [fileWrite, List.lookup]

theorem lookup_cons_ne (k : RawPath) (v : List Nat)
    (l : List (RawPath × List Nat)) (q : RawPath) (hne : q ≠ k) :
    ((k, v) :: l).lookup q = l.lookup q := by
  have hbeq : (q == k) = false := beq_eq_false_iff_ne.mpr hne
  simp [List.lookup, hbeq]

theorem lookup_none_filter (pred : RawPath × List Nat → Bool) (q : RawPath) :
    ∀ l : List (RawPath × List Nat),
      l.lookup q = none → (l.filter pred).lookup q = none := by
  intro l
  induction l with
  | nil =>
    intro h
    rfl
  | cons kv tl ih =>
    intro h
    obtain ⟨k, v⟩ := kv
    have hqk : (q == k) = false := by
      cases hv : (q == k) with
      | false => rfl
      | true =>
        simp only [List.lookup, hv] at h
        exact absurd h (by simp)
    have htl : tl.lookup q = none := by
      simp only [List.lookup, hqk] at h
      exact h
    cases hpred : pred (k, v) with
    | true =>
      simp only [List.filter, hpred, List.lookup, hqk]
      exact ih htl
    | false =>
      simp only [List.filter, hpred]
      exact ih htl

theorem fileCreate_ok_inv (fs fs2 : FS) (p : RawPath)
    (h : fileCreate fs p = Except.ok fs2) :
    fs.dirs.contains (resolvePath p) = false ∧
    ((resolvePath p).dropLast.inits).any
      (fun q => (fs.files.lookup q).isSome) = false ∧
    fs.dirs.contains ((resolvePath p).dropLast) = true ∧
    fs2.files = (resolvePath p, [])
      :: fs.files.filter (fun kv => !(kv.1 == resolvePath p)) := by
  unfold fileCreate at h
  split at h
  · simp at h
  · next h1 =>
    split at h
    · simp at h
    · next h2 =>
      split at h
      · simp at h
      · next h3 =>
        have hc3 : fs.dirs.contains ((resolvePath p).dropLast) = true := by
          have hb := Bool.eq_false_iff.mpr h3
          simpa using hb
        refine ⟨Bool.eq_false_iff.mpr h1, Bool.eq_false_iff.mpr h2, hc3, ?_⟩
        have h4 : ({ fs with
            files := (resolvePath p, [])
              :: fs.files.filter (fun kv => !(kv.1 == resolvePath p)) } : FS)
            = fs2 := by
          simpa using h
        rw [← h4]

theorem fileRead_fileWrite (fs : FS) (p : RawPath) (bytes : List Nat)
    (hclean : ((resolvePath p).dropLast.inits).any
      (fun q => ((fileWrite fs p bytes).files.lookup q).isSome) = false) :
    fileRead (fileWrite fs p bytes) p = Except.ok bytes := by
  unfold fileRead
  rw [hclean, lookup_fileWrite]
  rfl

end Prefs

namespace Prefs

/-- C1: the spec claims the successfully returned path never escapes the
base directory regardless of key content, including keys such as "..".
The code accepts the key ".." (no blocklist clause matches it) and returns
`basePath/..`, which resolves to the parent of the base directory: the
invariant is violated at this input. -/
theorem C1_key_dotdot_escapes_base :
    path_buf_from_name ".." (some exBase) = Except.ok (exBase ++ [".."]) ∧
    resolvePath (exBase ++ [".."]) = ["home", "user", ".local"] ∧
    exBase.isPrefixOf (resolvePath (exBase ++ [".."])) = false := by
  decide

/-- C2: under Policy A, save and load reject a key with the InvalidKey error
exactly when the key starts with "../", ends with "/..", contains "/../",
or, interpreted as a path, is not relative; for every other key no
key-content error is raised (stated with the base directory available, since
an unavailable base directory surfaces as its own error before the relative
check). -/
theorem C2_policyA_rejection {T : Type} (c : Codec T) (v self : T)
    (name : String) (bp : RawPath) (fs : FS) :
    (path_buf_from_name name (some bp) = Except.error (errBadName name)
       ↔ specInvalidKey name = true) ∧
    (specInvalidKey name = true →
       save c v name (some bp) fs
         = (Except.error (PreferencesError.Io (errBadName name)), fs) ∧
       load c self name (some bp) fs
         = (self, Except.error (PreferencesError.Io (errBadName name)), fs)) ∧
    (specInvalidKey name = false →
       (save c v name (some bp) fs).1
         ≠ Except.error (PreferencesError.Io (errBadName name)) ∧
       (load c self name (some bp) fs).2.1
         ≠ Except.error (PreferencesError.Io (errBadName name))) := by
  refine ⟨⟨?_, pbfn_error_of_invalid name bp⟩, ?_, ?_⟩
  · intro he
    by_contra hcond
    have hfalse : specInvalidKey name = false := by
      simpa using hcond
    rw [pbfn_ok_of_valid name bp hfalse] at he
    exact absurd he (by simp)
  · intro h
    have hp := pbfn_error_of_invalid name bp h
    constructor
    · simp [save, hp]
    · simp [load, hp]
  · intro h
    have hp := pbfn_ok_of_valid name bp h
    constructor
    · intro habs
      simp only [save, hp] at habs
      unfold saveAtPath at habs
      split at habs
      · next e hfc =>
        simp only [Prod.fst] at habs
        have he : e = errBadName name := by
          simp at habs
          exact habs
        rcases fileCreate_error_shape _ _ _ hfc with h1 | h1 | h1 <;>
          · rw [h1] at he
            exact errBadName_ne_short name _ _ (by decide) he.symm
      · next fs2 hfc =>
        split at habs
        · next e hst =>
          obtain ⟨m, hm⟩ := save_to_error_shape c v e hst
          simp only [Prod.fst] at habs
          rw [hm] at habs
          simp at habs
        · simp at habs
    · intro habs
      rw [load_pbfn_ok c self name (some bp) fs _ hp] at habs
      cases hfr : fileRead fs (bp ++ splitKey name) with
      | error e =>
        have hred : loadAtPath c self (bp ++ splitKey name) fs
            = (self, Except.error (PreferencesError.Io e), fs) := by
          unfold loadAtPath
          rw [hfr]
        rw [hred] at habs
        simp at habs
        rcases fileRead_error_shape _ _ _ hfr with h1 | h1 | h1 <;>
          · rw [h1] at habs
            exact errBadName_ne_short name _ _ (by decide) habs.symm
      | ok bytes =>
        have hred : loadAtPath c self (bp ++ splitKey name) fs
            = ((load_from c self bytes).1, (load_from c self bytes).2, fs) := by
          unfold loadAtPath
          rw [hfr]
        rw [hred] at habs
        have habs2 : (load_from c self bytes).2
            = Except.error (PreferencesError.Io (errBadName name)) := habs
        rcases load_from_error_shape c self bytes _ habs2 with h1 | ⟨m, h1⟩
        · simp [utf8Err, errBadName] at h1
        · simp at h1

/-- Witness for C2 at concrete inputs: a traversal key is rejected with the
InvalidKey error, and an ordinary key is not. -/
theorem C2_policyA_rejection_witness :
    specInvalidKey "../x" = true ∧
    save stringCodec "v" "../x" (some exBase) exFS
      = (Except.error (PreferencesError.Io (errBadName "../x")), exFS) ∧
    specInvalidKey "app/options" = false ∧
    (save stringCodec "v" "app/options" (some exBase) exFS).1
      ≠ Except.error (PreferencesError.Io (errBadName "app/options")) :=
  ⟨by decide,
   ((C2_policyA_rejection stringCodec "v" "v" "../x" exBase exFS).2.1 (by decide)).1,
   by decide,
   ((C2_policyA_rejection stringCodec "v" "v" "app/options" exBase exFS).2.2 (by decide)).1⟩

theorem stringCodec_round (v s : String)
    (h : stringCodec.encode v = Except.ok s) :
    stringCodec.decode s = Except.ok v := by
  simp [stringCodec] at h
  simp [stringCodec, h]

/-- C3: round-trip — for every value and every key accepted by the
sanitizer, once save(k, v) has succeeded, load(k) on the resulting
filesystem succeeds and yields a value equal to v.  Stated for any codec
satisfying the collaborator contract (decode inverts a successful encode). -/
theorem C3_round_trip {T : Type} (c : Codec T)
    (hround : ∀ v s, c.encode v = Except.ok s → c.decode s = Except.ok v)
    (v self : T) (name : String) (bp : RawPath) (fs fsOut : FS)
    (hsave : save c v name (some bp) fs = (Except.ok (), fsOut)) :
    load c self name (some bp) fsOut = (v, Except.ok (), fsOut) := by
  cases hp : path_buf_from_name name (some bp) with
  | error e =>
    rw [save_pbfn_err c v name (some bp) fs e hp] at hsave
    simp at hsave
  | ok path =>
    rw [save_pbfn_ok c v name (some bp) fs path hp] at hsave
    cases hfc : fileCreate (dirsStep fs path) path with
    | error e =>
      have hred : saveAtPath c v path fs
          = (Except.error (PreferencesError.Io e), dirsStep fs path) := by
        unfold saveAtPath
        rw [hfc]
      rw [hred] at hsave
      simp at hsave
    | ok fs2 =>
      cases hst : save_to c v with
      | error e2 =>
        have hred : saveAtPath c v path fs = (Except.error e2, fs2) := by
          unfold saveAtPath
          rw [hfc, hst]
        rw [hred] at hsave
        simp at hsave
      | ok bytes =>
        have hred : saveAtPath c v path fs
            = (Except.ok (), fileWrite fs2 path bytes) := by
          unfold saveAtPath
          rw [hfc, hst]
        rw [hred] at hsave
        have hfsOut : fileWrite fs2 path bytes = fsOut := by
          have := congrArg Prod.snd hsave
          simpa using this
        cases he : c.encode v with
        | error msg =>
          have hse : save_to c v = Except.error (PreferencesError.Serialize msg) := by
            unfold save_to
            rw [he]
          have := hse.symm.trans hst
          simp at this
        | ok s =>
          have hse : save_to c v = Except.ok (strToBytes s) := by
            unfold save_to
            rw [he]
          have hb2 : strToBytes s = bytes := Except.ok.inj (hse.symm.trans hst)
          rw [load_pbfn_ok c self name (some bp) fsOut path hp]
          unfold loadAtPath
          obtain ⟨hc1, hc2, hc3, hfiles⟩ :=
            fileCreate_ok_inv (dirsStep fs path) fs2 path hfc
          have htne0 : resolvePath path ≠ [] := by
            intro h0
            rw [h0] at hc1 hc3
            rw [List.dropLast_nil] at hc3
            rw [hc1] at hc3
            simp at hc3
          have hclean : ((resolvePath path).dropLast.inits).any
              (fun q => ((fileWrite fs2 path bytes).files.lookup q).isSome)
                = false := by
            apply List.any_eq_false.mpr
            intro q hq
            have hq2 : q <+: (resolvePath path).dropLast :=
              (List.mem_inits _ _).mp hq
            have hlen : q.length < (resolvePath path).length := by
              have hl1 := hq2.length_le
              rw [List.length_dropLast] at hl1
              have hpos : 0 < (resolvePath path).length :=
                List.length_pos.mpr htne0
              omega
            have hne : q ≠ resolvePath path := by
              intro hqe
              rw [hqe] at hlen
              omega
            have h1 : (dirsStep fs path).files.lookup q = none := by
              have hk := List.any_eq_false.mp hc2 q hq
              cases hcase : (dirsStep fs path).files.lookup q with
              | none => rfl
              | some b =>
                rw [hcase] at hk
                simp at hk
            have h2 : fs2.files.lookup q = none := by
              rw [hfiles, lookup_cons_ne _ _ _ _ hne]
              exact lookup_none_filter _ _ _ h1
            have h3 : (fileWrite fs2 path bytes).files.lookup q = none := by
              simp only [fileWrite]
              rw [lookup_cons_ne _ _ _ _ hne]
              exact lookup_none_filter _ _ _ h2
            rw [h3]
            simp
          have hrd : fileRead fsOut path = Except.ok bytes := by
            rw [← hfsOut]
            exact fileRead_fileWrite fs2 path bytes hclean
          have hbs : bytesToStr bytes = Except.ok s := by
            rw [← hb2]
            exact bytesToStr_strToBytes s
          have hlf : load_from c self bytes = (v, Except.ok ()) := by
            unfold load_from
            rw [hbs]
            simp [hround v s he]
          rw [hrd]
          simp [hlf]

/-- Witness for C3: saving "blue" under key "app/options" on a filesystem
holding only the base directory, then loading the same key, recovers
"blue". -/
theorem C3_round_trip_witness :
    load stringCodec "other" "app/options" (some exBase)
        (save stringCodec "blue" "app/options" (some exBase) exFS).2
      = ("blue", Except.ok (),
         (save stringCodec "blue" "app/options" (some exBase) exFS).2) :=
  C3_round_trip stringCodec stringCodec_round "blue" "other"
    "app/options" exBase exFS _ (by decide)

theorem resolveAux_no_dd (l : RawPath) (hnd : ".." ∉ l) :
    ∀ stack, resolveAux stack l = stack.reverse ++ l := by
  induction l with
  | nil =>
    intro stack
    simp [resolveAux]
  | cons c rest ih =>
    intro stack
    have hc : (c == "..") = false := by
      simp only [beq_eq_false_iff_ne]
      intro hce
      exact hnd (by rw [hce]; exact List.mem_cons_self _ _)
    unfold resolveAux
    rw [hc]
    simp only [Bool.false_eq_true, if_false]
    rw [ih (fun hm => hnd (List.mem_cons_of_mem _ hm)) (c :: stack)]
    simp

theorem resolvePath_no_dd (p : RawPath) (hnd : ".." ∉ rustComponents p) :
    resolvePath p = rustComponents p := by
  unfold resolvePath
  rw [resolveAux_no_dd _ hnd []]
  simp

/-- C4 counterexample: with a file occupying `exBase/deep`, the
directory-creation step of save("deep/key") fails with AlreadyExists, but
save discards that result (src/lib.rs line 406 drops the inner Result) and
returns the distinct NotADirectory error produced by the subsequent
File::create — the directory-creation failure itself never reaches the
caller. -/
theorem C4_dir_failure_swallowed :
    createDirAll fsBlock (parentPath (exBase ++ ["deep", "key"]))
      = Except.error ⟨ErrKind.alreadyExists, "File exists"⟩ ∧
    save stringCodec "v" "deep/key" (some exBase) fsBlock
      = (Except.error (PreferencesError.Io ⟨ErrKind.other, "Not a directory"⟩),
         fsBlock) ∧
    (⟨ErrKind.other, "Not a directory"⟩ : IoErr)
      ≠ ⟨ErrKind.alreadyExists, "File exists"⟩ := by
  decide

/-- C4 amended: when the directory-creation step of save fails, its error is
discarded; save then fails with the IoFailure produced by the subsequent
file-creation step (stated for keys without a `..` component and a parent
directory that does not already exist), so the caller still receives an
IoFailure, though not the directory-creation error itself. -/
theorem C4_save_fails_with_create_error {T : Type} (c : Codec T) (v : T)
    (name : String) (bp : RawPath) (fs : FS) (path : RawPath)
    (hp : path_buf_from_name name (some bp) = Except.ok path)
    (hnd : ".." ∉ rustComponents path)
    (hpd : fs.dirs.contains (parentPath path) = false)
    (e : IoErr)
    (hdir : createDirAll fs (parentPath path) = Except.error e) :
    ∃ efc, fileCreate fs path = Except.error efc ∧
      save c v name (some bp) fs
        = (Except.error (PreferencesError.Io efc), fs) := by
  have hds : dirsStep fs path = fs := by
    unfold dirsStep
    rw [hdir]
  have ht : resolvePath path = rustComponents path := resolvePath_no_dd path hnd
  have htd : (resolvePath path).dropLast = parentPath path := by
    rw [ht]
    rfl
  have hfc : ∃ efc, fileCreate fs path = Except.error efc := by
    unfold fileCreate
    by_cases h1 : fs.dirs.contains (resolvePath path) = true
    · rw [if_pos h1]
      exact ⟨_, rfl⟩
    · rw [if_neg h1]
      by_cases h2 : ((resolvePath path).dropLast.inits).any
          (fun q => (fs.files.lookup q).isSome) = true
      · rw [if_pos h2]
        exact ⟨_, rfl⟩
      · rw [if_neg h2]
        have h3 : (!fs.dirs.contains (resolvePath path).dropLast) = true := by
          rw [htd, hpd]
          rfl
        rw [if_pos h3]
        exact ⟨_, rfl⟩
  obtain ⟨efc, hfcv⟩ := hfc
  refine ⟨efc, hfcv, ?_⟩
  rw [save_pbfn_ok c v name (some bp) fs path hp]
  unfold saveAtPath
  rw [hds, hfcv]

/-- Witness for C4 at concrete inputs: the blocked save returns the
file-creation error. -/
theorem C4_save_fails_with_create_error_witness :
    ∃ efc, fileCreate fsBlock (exBase ++ ["deep", "key"]) = Except.error efc ∧
      save stringCodec "v" "deep/key" (some exBase) fsBlock
        = (Except.error (PreferencesError.Io efc), fsBlock) :=
  C4_save_fails_with_create_error stringCodec "v" "deep/key" exBase fsBlock
    (exBase ++ ["deep", "key"]) (by decide) (by decide) (by decide)
    ⟨ErrKind.alreadyExists, "File exists"⟩ (by decide)

/-- C5 counterexample: a stored record whose bytes are not valid UTF-8 makes
load fail with the Io(InvalidData) error the crate builds from
FromUtf8Error (src/lib.rs lines 347-354) — not with a Deserialize
(DecodeError) failure as the claim states. -/
theorem C5_invalid_utf8_is_io_error :
    load stringCodec "keep" "app/options" (some exBase) fsBad
      = ("keep", Except.error (PreferencesError.Io utf8Err), fsBad) ∧
    isDeserializeFailure
        (load stringCodec "keep" "app/options" (some exBase) fsBad).2.1 = false := by
  decide

theorem load_from_utf8_eq {T : Type} (c : Codec T) (self : T)
    (bytes : List Nat) (h : bytesToStr bytes = Except.error ()) :
    load_from c self bytes
      = (self, Except.error (PreferencesError.Io utf8Err)) := by
  unfold load_from
  rw [h]

theorem load_from_decode_err_eq {T : Type} (c : Codec T) (self : T)
    (bytes : List Nat) (s m : String)
    (h1 : bytesToStr bytes = Except.ok s) (h2 : c.decode s = Except.error m) :
    load_from c self bytes
      = (self, Except.error (PreferencesError.Deserialize m)) := by
  unfold load_from
  rw [h1]
  simp [h2]

theorem load_from_ok_eq {T : Type} (c : Codec T) (self : T)
    (bytes : List Nat) (s : String) (w : T)
    (h1 : bytesToStr bytes = Except.ok s) (h2 : c.decode s = Except.ok w) :
    load_from c self bytes = (w, Except.ok ()) := by
  unfold load_from
  rw [h1]
  simp [h2]

/-- C5 amended: corrupted stored bytes never yield a default value — the
object is left unchanged and load_from fails; bytes that are not valid
UTF-8 yield the Io error with kind InvalidData and the fixed invalid-UTF-8
message, while bytes that decode as text but fail JSON decoding yield
Deserialize (the DecodeError). -/
theorem C5_corruption_errors {T : Type} (c : Codec T) (self : T)
    (bytes : List Nat) :
    (bytesToStr bytes = Except.error () →
       load_from c self bytes
         = (self, Except.error (PreferencesError.Io utf8Err))) ∧
    (∀ s m, bytesToStr bytes = Except.ok s → c.decode s = Except.error m →
       load_from c self bytes
         = (self, Except.error (PreferencesError.Deserialize m))) := by
  constructor
  · intro h
    exact load_from_utf8_eq c self bytes h
  · intro s m h1 h2
    exact load_from_decode_err_eq c self bytes s m h1 h2

/-- Witness for C5 at concrete inputs: an invalid-UTF-8 byte and a decode
failure both leave the object unchanged and produce the stated errors. -/
theorem C5_corruption_errors_witness :
    load_from stringCodec "keep" [55296]
      = ("keep", Except.error (PreferencesError.Io utf8Err)) ∧
    load_from failCodec "keep" (strToBytes "tru")
      = ("keep", Except.error (PreferencesError.Deserialize "EOF while parsing")) :=
  ⟨(C5_corruption_errors stringCodec "keep" [55296]).1 (by decide),
   (C5_corruption_errors failCodec "keep" (strToBytes "tru")).2
     "tru" "EOF while parsing" (by decide) rfl⟩

/-- C6 counterexample: three keys with no existing record for which load
does not return a NotFound error: a rejected traversal key surfaces the
InvalidKey error (kind Other); the accepted key "." resolves to the
existing base directory itself, so the read fails with EISDIR (kind
Other); and after save("app", v) the accepted key "app/options" — whose
resolved path holds neither a file nor a directory — fails with ENOTDIR
(kind Other) because the file at base/app blocks the path walk. -/
theorem C6_missing_key_not_always_notfound :
    (load stringCodec "keep" "../etc" (some exBase) exFS
       = ("keep", Except.error (PreferencesError.Io (errBadName "../etc")), exFS) ∧
     (errBadName "../etc").kind = ErrKind.other) ∧
    load stringCodec "keep" "." (some exBase) exFS
      = ("keep",
         Except.error (PreferencesError.Io ⟨ErrKind.other, "Is a directory"⟩),
         exFS) ∧
    load stringCodec "keep" "app/options" (some exBase)
        (save stringCodec "v" "app" (some exBase) exFS).2
      = ("keep",
         Except.error (PreferencesError.Io ⟨ErrKind.other, "Not a directory"⟩),
         (save stringCodec "v" "app" (some exBase) exFS).2) := by
  decide

/-- C6 amended: for every key accepted by the sanitizer whose resolved path
holds neither a file nor a directory and along whose path no file occupies
a proper prefix, load returns the NotFound error and leaves the filesystem
(and the target object) unchanged. -/
theorem C6_missing_record_notfound {T : Type} (c : Codec T) (self : T)
    (name : String) (bp : RawPath) (fs : FS) (path : RawPath)
    (hp : path_buf_from_name name (some bp) = Except.ok path)
    (hpref : ((resolvePath path).dropLast.inits).any
      (fun q => (fs.files.lookup q).isSome) = false)
    (hnf : fs.files.lookup (resolvePath path) = none)
    (hnd : fs.dirs.contains (resolvePath path) = false) :
    load c self name (some bp) fs
      = (self,
         Except.error (PreferencesError.Io
           ⟨ErrKind.notFound, "No such file or directory"⟩), fs) := by
  rw [load_pbfn_ok c self name (some bp) fs path hp]
  unfold loadAtPath
  have hfr : fileRead fs path
      = Except.error ⟨ErrKind.notFound, "No such file or directory"⟩ := by
    unfold fileRead
    rw [hpref, hnf]
    have hnd2 : resolvePath path ∉ fs.dirs := by simpa using hnd
    simp [hnd2]
  rw [hfr]

/-- Witness for C6 at a concrete input: loading a never-saved key returns
NotFound and changes nothing. -/
theorem C6_missing_record_notfound_witness :
    load stringCodec "keep" "never/saved" (some exBase) exFS
      = ("keep",
         Except.error (PreferencesError.Io
           ⟨ErrKind.notFound, "No such file or directory"⟩), exFS) :=
  C6_missing_record_notfound stringCodec "keep" "never/saved" exBase exFS
    (exBase ++ ["never", "saved"]) (by decide) (by decide) (by decide) (by decide)

/-- C7 counterexample: for the key "app/options" the built path is the base
directory plus the two segments verbatim — it neither carries an extra
fixed-filename component (layout a) nor a non-empty extension appended to
the last segment (layout b): the path matches neither sanctioned layout. -/
theorem C7_no_fixed_filename_or_extension :
    path_buf_from_name "app/options" (some exBase)
      = Except.ok (exBase ++ ["app", "options"]) ∧
    (¬ ∃ fname : String,
        exBase ++ ["app", "options"] = exBase ++ ["app", "options", fname]) ∧
    (¬ ∃ ext : String, ext ≠ "" ∧
        exBase ++ ["app", "options"] = exBase ++ ["app", "options" ++ ext]) := by
  refine ⟨by decide, ?_, ?_⟩
  · rintro ⟨fname, h⟩
    have hlen := congrArg List.length h
    simp at hlen
  · rintro ⟨ext, hne, h⟩
    have h2 := List.append_cancel_left h
    have h3 : ("options" : String) = "options" ++ ext := by
      have h4 := h2
      simp only [List.cons.injEq, and_true, true_and] at h4
      exact h4
    have hlen := congrArg String.length h3
    rw [String.length_append] at hlen
    have hzero : ext.length = 0 := by omega
    apply hne
    cases ext with
    | mk data =>
      have hd : data.length = 0 := hzero
      have hdnil : data = [] := List.length_eq_zero.mp hd
      rw [hdnil]

/-- C7 amended: save and load resolve a key with the same function, and the
resulting path is the base directory followed by the key split on `/`
verbatim — earlier segments become parent directories and the last segment
itself is the filename, with no fixed filename and no added extension. -/
theorem C7_verbatim_layout {T : Type} (c : Codec T) (v self : T)
    (name : String) (bp : RawPath) (fs : FS)
    (h1 : badNameCheck name = false) (h2 : isRelativePath name = true) :
    path_buf_from_name name (some bp) = Except.ok (bp ++ splitKey name) ∧
    save c v name (some bp) fs = saveAtPath c v (bp ++ splitKey name) fs ∧
    load c self name (some bp) fs = loadAtPath c self (bp ++ splitKey name) fs := by
  have hcond : specInvalidKey name = false := by
    rw [specInvalidKey_eq, h1, h2]
    rfl
  have hp := pbfn_ok_of_valid name bp hcond
  exact ⟨hp, save_pbfn_ok c v name (some bp) fs _ hp,
    load_pbfn_ok c self name (some bp) fs _ hp⟩

/-- Witness for C7 at a concrete input. -/
theorem C7_verbatim_layout_witness :
    path_buf_from_name "app/options" (some exBase)
      = Except.ok (exBase ++ splitKey "app/options") ∧
    save stringCodec "v" "app/options" (some exBase) exFS
      = saveAtPath stringCodec "v" (exBase ++ splitKey "app/options") exFS ∧
    load stringCodec "keep" "app/options" (some exBase) exFS
      = loadAtPath stringCodec "keep" (exBase ++ splitKey "app/options") exFS :=
  C7_verbatim_layout stringCodec "v" "keep" "app/options" exBase exFS
    (by decide) (by decide)

theorem rustComponents_dropLast (p : RawPath) :
    rustComponents ((rustComponents p).dropLast) = (rustComponents p).dropLast := by
  apply List.filter_eq_self.mpr
  intro a ha
  have hmem : a ∈ rustComponents p :=
    (List.dropLast_prefix (rustComponents p)).subset ha
  exact (List.mem_filter.mp hmem).2

theorem resolvePath_parent (path : RawPath)
    (hnd : ".." ∉ rustComponents path) :
    resolvePath (parentPath path) = (rustComponents path).dropLast := by
  have hnd2 : ".." ∉ (rustComponents path).dropLast := fun hm =>
    hnd ((List.dropLast_prefix (rustComponents path)).subset hm)
  unfold parentPath
  rw [resolvePath, rustComponents_dropLast]
  rw [resolveAux_no_dd _ hnd2 []]
  simp

theorem contains_false_of_not_mem (l : List RawPath) (a : RawPath)
    (h : a ∉ l) : l.contains a = false := by
  by_cases hc : l.contains a = true
  · exact absurd (List.mem_of_elem_eq_true hc) h
  · exact Bool.eq_false_iff.mpr hc

theorem createDirAll_ok (fs : FS) (p : RawPath)
    (h1 : (resolvePath p).inits.dropLast.any
        (fun q => (fs.files.lookup q).isSome) = false)
    (h2 : fs.files.lookup (resolvePath p) = none) :
    createDirAll fs p
      = Except.ok { fs with dirs := fs.dirs ++ (resolvePath p).inits } := by
  unfold createDirAll
  rw [h1, h2]
  rfl

theorem fileCreate_ok (fs : FS) (p : RawPath)
    (h1 : fs.dirs.contains (resolvePath p) = false)
    (h2 : ((resolvePath p).dropLast.inits).any
      (fun q => (fs.files.lookup q).isSome) = false)
    (h3 : fs.dirs.contains ((resolvePath p).dropLast) = true) :
    fileCreate fs p = Except.ok { fs with
      files := (resolvePath p, [])
        :: fs.files.filter (fun kv => !(kv.1 == resolvePath p)) } := by
  unfold fileCreate
  rw [h1, h2, h3]
  rfl

/-- C8: for every accepted key (without `..` components and a non-empty
resolved path) on a filesystem where no file blocks the path and the target
is not a directory, save succeeds whenever encoding does, and afterwards
every directory on the parent chain exists. -/
theorem C8_save_creates_directories {T : Type} (c : Codec T) (v : T)
    (name : String) (bp : RawPath) (fs : FS) (path : RawPath) (s : String)
    (hp : path_buf_from_name name (some bp) = Except.ok path)
    (hnd : ".." ∉ rustComponents path)
    (htne : rustComponents path ≠ [])
    (hnoblock : ∀ q ∈ (rustComponents path).inits, fs.files.lookup q = none)
    (hnotdir : fs.dirs.contains (rustComponents path) = false)
    (henc : c.encode v = Except.ok s) :
    ∃ fsOut, save c v name (some bp) fs = (Except.ok (), fsOut) ∧
      ∀ q ∈ (parentPath path).inits, q ∈ fsOut.dirs := by
  have ht : resolvePath path = rustComponents path := resolvePath_no_dd path hnd
  have hpt : resolvePath (parentPath path) = (rustComponents path).dropLast :=
    resolvePath_parent path hnd
  have hptpref : (rustComponents path).dropLast <+: rustComponents path :=
    List.dropLast_prefix _
  -- the directory-creation step succeeds
  have hcd : createDirAll fs (parentPath path)
      = Except.ok { fs with
          dirs := fs.dirs ++ ((rustComponents path).dropLast).inits } := by
    have h1 : (resolvePath (parentPath path)).inits.dropLast.any
        (fun q => (fs.files.lookup q).isSome) = false := by
      rw [hpt]
      apply List.any_eq_false.mpr
      intro q hq
      have hq2 : q ∈ ((rustComponents path).dropLast).inits :=
        (List.dropLast_prefix _).subset hq
      have hq3 : q <+: (rustComponents path).dropLast :=
        (List.mem_inits _ _).mp hq2
      have hq4 : q ∈ (rustComponents path).inits :=
        (List.mem_inits _ _).mpr (hq3.trans hptpref)
      rw [hnoblock q hq4]
      simp
    have h2 : fs.files.lookup (resolvePath (parentPath path)) = none := by
      rw [hpt]
      exact hnoblock _ ((List.mem_inits _ _).mpr hptpref)
    have h := createDirAll_ok fs (parentPath path) h1 h2
    rw [hpt] at h
    exact h
  have hds : dirsStep fs path
      = { fs with dirs := fs.dirs ++ ((rustComponents path).dropLast).inits } := by
    unfold dirsStep
    rw [hcd]
  -- the file creation succeeds
  have hnotmem : rustComponents path
      ∉ fs.dirs ++ ((rustComponents path).dropLast).inits := by
    intro hmem
    rcases List.mem_append.mp hmem with hm | hm
    · exact absurd (List.elem_eq_true_of_mem hm)
        (Bool.eq_false_iff.mp hnotdir)
    · have hq3 : rustComponents path <+: (rustComponents path).dropLast :=
        (List.mem_inits _ _).mp hm
      have hle := hq3.length_le
      rw [List.length_dropLast] at hle
      have hpos : 0 < (rustComponents path).length :=
        List.length_pos.mpr htne
      omega
  have hfc : fileCreate (dirsStep fs path) path
      = Except.ok { fs with
          dirs := fs.dirs ++ ((rustComponents path).dropLast).inits,
          files := (rustComponents path, [])
            :: fs.files.filter (fun kv => !(kv.1 == rustComponents path)) } := by
    rw [hds]
    have h1 : ({ fs with
        dirs := fs.dirs ++ ((rustComponents path).dropLast).inits } : FS).dirs.contains
          (resolvePath path) = false := by
      show (fs.dirs ++ ((rustComponents path).dropLast).inits).contains
        (resolvePath path) = false
      rw [ht]
      exact contains_false_of_not_mem _ _ hnotmem
    have h2 : ((resolvePath path).dropLast.inits).any
        (fun q => (({ fs with
          dirs := fs.dirs ++ ((rustComponents path).dropLast).inits } : FS).files.lookup
            q).isSome) = false := by
      show ((resolvePath path).dropLast.inits).any
        (fun q => (fs.files.lookup q).isSome) = false
      rw [ht]
      apply List.any_eq_false.mpr
      intro q hq
      have hq3 : q <+: (rustComponents path).dropLast :=
        (List.mem_inits _ _).mp hq
      have hq4 : q ∈ (rustComponents path).inits :=
        (List.mem_inits _ _).mpr (hq3.trans hptpref)
      rw [hnoblock q hq4]
      simp
    have h3 : ({ fs with
        dirs := fs.dirs ++ ((rustComponents path).dropLast).inits } : FS).dirs.contains
          ((resolvePath path).dropLast) = true := by
      show (fs.dirs ++ ((rustComponents path).dropLast).inits).contains
        ((resolvePath path).dropLast) = true
      rw [ht]
      exact List.elem_eq_true_of_mem (List.mem_append.mpr (Or.inr
        ((List.mem_inits _ _).mpr (List.prefix_refl _))))
    have h := fileCreate_ok _ path h1 h2 h3
    rw [h]
    rw [ht]
  have hst : save_to c v = Except.ok (strToBytes s) := by
    unfold save_to
    rw [henc]
  refine ⟨fileWrite { fs with
      dirs := fs.dirs ++ ((rustComponents path).dropLast).inits,
      files := (rustComponents path, [])
        :: fs.files.filter (fun kv => !(kv.1 == rustComponents path)) }
      path (strToBytes s), ?_, ?_⟩
  · rw [save_pbfn_ok c v name (some bp) fs path hp]
    unfold saveAtPath
    rw [hfc, hst]
  · intro q hq
    simp only [fileWrite]
    exact List.mem_append.mpr (Or.inr hq)

/-- Witness for C8 at a concrete input: saving under "deep/nested/key" on a
filesystem with only the base directory succeeds and leaves the
intermediate directories present. -/
theorem C8_save_creates_directories_witness :
    ∃ fsOut, save stringCodec "v" "deep/nested/key" (some exBase) exFS
        = (Except.ok (), fsOut) ∧
      ∀ q ∈ (parentPath (exBase ++ ["deep", "nested", "key"])).inits,
        q ∈ fsOut.dirs :=
  C8_save_creates_directories stringCodec "v" "deep/nested/key" exBase exFS
    (exBase ++ ["deep", "nested", "key"]) "v" (by decide) (by decide)
    (by decide) (by decide) (by decide) rfl

/-- C9: save and load are total on every input — malformed keys, missing
files, unavailable base directory, corrupt stored bytes included — and
every outcome is an ordinary ok/error value; no panicking or otherwise
partial case exists in the embedding of either operation. -/
theorem C9_total_no_panic {T : Type} (c : Codec T) (v self : T)
    (name : String) (basePath : Option RawPath) (fs : FS) :
    ((save c v name basePath fs).1 = Except.ok ()
       ∨ ∃ e, (save c v name basePath fs).1 = Except.error e) ∧
    ((load c self name basePath fs).2.1 = Except.ok ()
       ∨ ∃ e, (load c self name basePath fs).2.1 = Except.error e) := by
  constructor
  · cases hs : (save c v name basePath fs).1 with
    | ok u =>
      left
      cases u
      rfl
    | error e =>
      right
      exact ⟨e, rfl⟩
  · cases hl : (load c self name basePath fs).2.1 with
    | ok u =>
      left
      cases u
      rfl
    | error e =>
      right
      exact ⟨e, rfl⟩

theorem load_from_error_fst {T : Type} (c : Codec T) (self : T)
    (bytes : List Nat) (e : PreferencesError)
    (he : (load_from c self bytes).2 = Except.error e) :
    (load_from c self bytes).1 = self := by
  cases hbs : bytesToStr bytes with
  | error u =>
    cases u
    rw [load_from_utf8_eq c self bytes hbs]
  | ok s =>
    cases hdec : c.decode s with
    | error m =>
      rw [load_from_decode_err_eq c self bytes s m hbs hdec]
    | ok w =>
      rw [load_from_ok_eq c self bytes s w hbs hdec] at he
      simp at he

/-- C10: if load (or load_from) fails at any step — path resolution, file
open/read, UTF-8 validation, or JSON decoding — the target object is left
completely unchanged (and load never touches the filesystem); the object is
overwritten only when the whole operation succeeds. -/
theorem C10_error_leaves_object_unchanged {T : Type} (c : Codec T) (self : T)
    (name : String) (basePath : Option RawPath) (fs : FS) (bytes : List Nat) :
    (∀ e, (load_from c self bytes).2 = Except.error e →
       (load_from c self bytes).1 = self) ∧
    (∀ e, (load c self name basePath fs).2.1 = Except.error e →
       (load c self name basePath fs).1 = self
         ∧ (load c self name basePath fs).2.2 = fs) := by
  constructor
  · intro e he
    exact load_from_error_fst c self bytes e he
  · intro e he
    cases hpv : path_buf_from_name name basePath with
    | error e2 =>
      rw [load_pbfn_err c self name basePath fs e2 hpv]
      exact ⟨rfl, rfl⟩
    | ok path =>
      rw [load_pbfn_ok c self name basePath fs path hpv] at he ⊢
      cases hfr : fileRead fs path with
      | error e3 =>
        have hred : loadAtPath c self path fs
            = (self, Except.error (PreferencesError.Io e3), fs) := by
          unfold loadAtPath
          rw [hfr]
        rw [hred]
        exact ⟨rfl, rfl⟩
      | ok bytes2 =>
        have hred : loadAtPath c self path fs
            = ((load_from c self bytes2).1, (load_from c self bytes2).2, fs) := by
          unfold loadAtPath
          rw [hfr]
        rw [hred] at he ⊢
        have h1 : (load_from c self bytes2).2 = Except.error e := he
        exact ⟨load_from_error_fst c self bytes2 e h1, rfl⟩

/-- Witness for C10 at a concrete input: a failing load (missing record)
leaves the object and filesystem unchanged. -/
theorem C10_error_leaves_object_unchanged_witness :
    (load stringCodec "keep" "never/saved" (some exBase) exFS).1 = "keep"
      ∧ (load stringCodec "keep" "never/saved" (some exBase) exFS).2.2 = exFS :=
  (C10_error_leaves_object_unchanged stringCodec "keep" "never/saved"
      (some exBase) exFS []).2
    (PreferencesError.Io ⟨ErrKind.notFound, "No such file or directory"⟩)
    (by decide)

end Prefs
